import Mathlib

/-!
# Chain-race simulator of `Unlimited Blocksize/main.go`

A shallow embedding of the tick body of the main simulation loop
(`src/Unlimited Blocksize/main.go`, lines 133-347) and theorems about it,
followed by the clamp `targetAdjustment0` of `Difficulty Adjustment/main.go`.

The loop keeps its state in loose `int` variables; here they are the fields of
`State`, with the names of the source.  The per-tick success counts `A .. F`
are produced by counting hash successes upwards from zero, so they are natural
numbers; the counters of the state are Go `int`s and are modelled as `Int`
(the run of the program is far too short for a 64-bit counter to wrap).  The
hashing that produces the success counts is not modelled: the tick body is a
function of the state and of the success vector.
-/

namespace UnlimitedBlocksize

/-- The success counts of one simulated second: `var A, B, C, D, E, F int`,
each incremented once per successful hash. -/
structure Tick where
  A : Nat := 0
  B : Nat := 0
  C : Nat := 0
  D : Nat := 0
  E : Nat := 0
  F : Nat := 0

/-- The variables declared before the loop (lines 134-141). -/
structure State where
  blocksA : Int := 0
  blocksB : Int := 0
  blocksC : Int := 0
  blocksD : Int := 0
  blocksE : Int := 0
  blocksF : Int := 0
  stalesA : Int := 0
  stalesB : Int := 0
  stalesC : Int := 0
  stalesD : Int := 0
  stalesE : Int := 0
  stalesF : Int := 0
  heavyA : Int := 0
  heavyB : Int := 0
  heavyC : Int := 0
  heavyD : Int := 0
  heavyE : Int := 0
  compD : Int := 0
  compE : Int := 0
  compF : Int := 0
  seenDE : Bool := false
  progressA : Int := -1
  heavyDepth : Int := 0
  compDepth : Int := 0

/-- The state on entry to the loop: every counter zero, `seenDE` false,
`progressA := -1`. -/
def init : State := {}

/-- Lines 194-198: an idle `A` that finds a block starts a heavy block. -/
def startHeavy (s : State) (t : Tick) : State :=
  if s.progressA = -1 ∧ t.A > 0 then { s with progressA := 0 } else s

/-- Lines 199-201: `heavyDepth += A; heavyA += A`. -/
def addA (s : State) (t : Tick) : State :=
  { s with heavyDepth := s.heavyDepth + t.A, heavyA := s.heavyA + t.A }

/-- Lines 227-229, 241-243 and 270-272 (the same three statements):
`heavyDepth += B + C; heavyB += B; heavyC += C`. -/
def addBC (s : State) (t : Tick) : State :=
  { s with heavyDepth := s.heavyDepth + (t.B + t.C),
           heavyB := s.heavyB + t.B,
           heavyC := s.heavyC + t.C }

/-- Lines 252-260 and 274-282 (the same statement): `D` and `E` extend the
heavy chain unless `seenDE`, in which case they extend the competing chain. -/
def addDE (s : State) (t : Tick) : State :=
  if !s.seenDE then
    { s with heavyDepth := s.heavyDepth + (t.D + t.E),
             heavyD := s.heavyD + t.D,
             heavyE := s.heavyE + t.E }
  else
    { s with compDepth := s.compDepth + (t.D + t.E),
             compD := s.compD + t.D,
             compE := s.compE + t.E }

/-- Lines 262-266 and 284-288 (the same statement): `F` extends the competing
chain. -/
def addF (s : State) (t : Tick) : State :=
  if t.F > 0 then
    { s with compDepth := s.compDepth + t.F, compF := s.compF + t.F }
  else s

/-- Lines 205-209 and 218-222 (the same five statements): the blocks of the
other miners are accepted at once. -/
def acceptOthers (s : State) (t : Tick) : State :=
  { s with blocksB := s.blocksB + t.B,
           blocksC := s.blocksC + t.C,
           blocksD := s.blocksD + t.D,
           blocksE := s.blocksE + t.E,
           blocksF := s.blocksF + t.F }

/-- Lines 210-223, the branch `progressA == 0`. -/
def abandon (s : State) (t : Tick) : State :=
  if t.B + t.C + t.D + t.E + t.F > 0 then
    acceptOthers { s with stalesA := s.stalesA + s.heavyDepth, progressA := -1 } t
  else s

/-- Lines 224-238, the branch `progressA < 41`. -/
def nearPhase (s : State) (t : Tick) : State :=
  let s1 := addBC s t
  if t.D + t.E + t.F > 0 then
    { s1 with compDepth := s1.compDepth + (t.D + t.E + t.F),
              compD := s1.compD + t.D,
              compE := s1.compE + t.E,
              compF := s1.compF + t.F,
              seenDE := true }
  else s1

/-- Lines 239-266, the branch `progressA < 81`. -/
def midPhase (s : State) (t : Tick) : State :=
  let s1 := addBC s t
  let s2 := if s1.heavyDepth > s1.compDepth then { s1 with seenDE := false } else s1
  addF (addDE s2 t) t

/-- Lines 267-289, the final `else`. -/
def farPhase (s : State) (t : Tick) : State :=
  addF (addDE (addBC s t) t) t

/-- Lines 202-289: the `if / else if` chain on `progressA`. -/
def spread (s : State) (t : Tick) : State :=
  if s.progressA = -1 then acceptOthers s t
  else if s.progressA = 0 then abandon s t
  else if s.progressA < 41 then nearPhase s t
  else if s.progressA < 81 then midPhase s t
  else farPhase s t

/-- Lines 194-289: everything a tick does before the two resolution checks. -/
def additions (s : State) (t : Tick) : State :=
  spread (addA (startHeavy s t) t) t

/-- Lines 293-313, the body of the first resolution check: the heavy chain is
stale, the competing chain is accepted, the race is over. -/
def dropHeavy (s : State) : State :=
  { s with progressA := -1,
           stalesA := s.stalesA + s.heavyA,
           stalesB := s.stalesB + s.heavyB,
           stalesC := s.stalesC + s.heavyC,
           stalesD := s.stalesD + s.heavyD,
           stalesE := s.stalesE + s.heavyE,
           blocksD := s.blocksD + s.compD,
           blocksE := s.blocksE + s.compE,
           blocksF := s.blocksF + s.compF,
           heavyA := 0, heavyB := 0, heavyC := 0, heavyD := 0, heavyE := 0,
           compD := 0, compE := 0, compF := 0,
           compDepth := 0, heavyDepth := 0 }

/-- Lines 290-314: if the competing chain is ahead, the heavy chain is
dropped. -/
def compWins (s : State) : State :=
  if s.compDepth > s.heavyDepth then dropHeavy s else s

/-- Lines 321-339, the body of the second resolution check: the heavy chain is
accepted, the competing chain is stale, the race is over. -/
def acceptHeavy (s : State) : State :=
  { s with progressA := -1,
           blocksA := s.blocksA + s.heavyA,
           blocksB := s.blocksB + s.heavyB,
           blocksC := s.blocksC + s.heavyC,
           blocksD := s.blocksD + s.heavyD,
           blocksE := s.blocksE + s.heavyE,
           stalesD := s.stalesD + s.compD,
           stalesE := s.stalesE + s.compE,
           stalesF := s.stalesF + s.compF,
           heavyA := 0, heavyB := 0, heavyC := 0, heavyD := 0, heavyE := 0,
           compD := 0, compE := 0, compF := 0,
           compDepth := 0, heavyDepth := 0 }

/-- Lines 315-340: the heavy block propagates one more second, or, once it
cannot propagate further, the heavy chain is accepted if it is ahead. -/
def advance (s : State) : State :=
  if s.progressA ≠ -1 ∧ s.progressA < 82 then
    { s with progressA := s.progressA + 1 }
  else if s.progressA ≤ 82 ∧ s.heavyDepth > s.compDepth then acceptHeavy s
  else s

/-- Lines 290-340: the two resolution checks, in the order of the source. -/
def resolve (s : State) : State :=
  advance (compWins s)

/-- One iteration of the loop body, lines 194-340. -/
def tick (s : State) (t : Tick) : State :=
  resolve (additions s t)

/-- The loop: the tick body applied to the success vectors in order. -/
def run (s : State) (ts : List Tick) : State :=
  ts.foldl tick s

/-- A state the loop can be in at a tick boundary. -/
def Reachable (s : State) : Prop :=
  ∃ ts : List Tick, run init ts = s

/-- The twelve counters printed at the end of the run. -/
def ledger (s : State) : Int :=
  s.blocksA + s.blocksB + s.blocksC + s.blocksD + s.blocksE + s.blocksF
    + (s.stalesA + s.stalesB + s.stalesC + s.stalesD + s.stalesE + s.stalesF)

/-- The eight per-miner counters of blocks whose race is not yet decided. -/
def provisional (s : State) : Int :=
  s.heavyA + s.heavyB + s.heavyC + s.heavyD + s.heavyE + (s.compD + s.compE + s.compF)

/-- The successes of one tick, all miners together. -/
def Tick.total (t : Tick) : Int :=
  t.A + t.B + t.C + t.D + t.E + t.F

/-- The successes fed to the loop so far. -/
def fed (ts : List Tick) : Int :=
  (ts.map Tick.total).sum

/-- The branch of lines 214-223 is taken in this tick: the heavy block is at
progress 0 when another miner finds a block. -/
def abandons (s : State) (t : Tick) : Prop :=
  (addA (startHeavy s t) t).progressA = 0 ∧ t.B + t.C + t.D + t.E + t.F > 0

/-- No tick of the run takes the branch of lines 214-223. -/
def NoAbandon : State → List Tick → Prop
  | _, [] => True
  | s, t :: ts => ¬ abandons s t ∧ NoAbandon (tick s t) ts

instance (s : State) (t : Tick) : Decidable (abandons s t) :=
  inferInstanceAs (Decidable (_ ∧ _))

instance NoAbandon.dec : (s : State) → (ts : List Tick) → Decidable (NoAbandon s ts)
  | _, [] => isTrue trivial
  | s, t :: ts =>
    have := NoAbandon.dec (tick s t) ts
    inferInstanceAs (Decidable (_ ∧ _))

/-- What holds of the state at every tick boundary. -/
structure Inv (s : State) : Prop where
  range : s.progressA = -1 ∨ (1 ≤ s.progressA ∧ s.progressA ≤ 82)
  heavySum : s.heavyDepth = s.heavyA + s.heavyB + s.heavyC + s.heavyD + s.heavyE
  compSum : s.compDepth = s.compD + s.compE + s.compF
  heavyA_nn : 0 ≤ s.heavyA
  heavyB_nn : 0 ≤ s.heavyB
  heavyC_nn : 0 ≤ s.heavyC
  heavyD_nn : 0 ≤ s.heavyD
  heavyE_nn : 0 ≤ s.heavyE
  compD_nn : 0 ≤ s.compD
  compE_nn : 0 ≤ s.compE
  compF_nn : 0 ≤ s.compF
  idle : s.progressA = -1 → s.heavyDepth = 0 ∧ s.compDepth = 0
  racing : s.progressA ≠ -1 → 1 ≤ s.heavyDepth
  behind : s.compDepth ≤ s.heavyDepth

/-- None of the twelve ledger counters differs between `s` and `r`. -/
def SameLedger (s r : State) : Prop :=
  r.blocksA = s.blocksA ∧ r.blocksB = s.blocksB ∧ r.blocksC = s.blocksC ∧
  r.blocksD = s.blocksD ∧ r.blocksE = s.blocksE ∧ r.blocksF = s.blocksF ∧
  r.stalesA = s.stalesA ∧ r.stalesB = s.stalesB ∧ r.stalesC = s.stalesC ∧
  r.stalesD = s.stalesD ∧ r.stalesE = s.stalesE ∧ r.stalesF = s.stalesF

/-- No race is in progress and nothing is provisional: `progressA = -1`, both
depths and the eight per-miner provisional counters are zero. -/
def Cleared (s : State) : Prop :=
  s.progressA = -1 ∧ s.heavyDepth = 0 ∧ s.compDepth = 0 ∧
  s.heavyA = 0 ∧ s.heavyB = 0 ∧ s.heavyC = 0 ∧ s.heavyD = 0 ∧ s.heavyE = 0 ∧
  s.compD = 0 ∧ s.compE = 0 ∧ s.compF = 0

/-- A tick in which nobody finds a block. -/
def quiet : Tick := {}

/-- A run of one tick in which `A` finds the heavy block: the race is on, with
`progressA = 1`. -/
def oneA : List Tick := [{ A := 1 }]

/-- A run that brings the heavy block to full propagation with the two chains
level: `A` finds the heavy block, `F` answers one second later, and nothing
else is found for eighty seconds. -/
def tieTicks : List Tick :=
  { A := 1 } :: { F := 1 } :: List.replicate 80 quiet

/-- A run that reaches the mid phase (`progressA = 41`) with the two chains
level and `seenDE` set. -/
def midTieTicks : List Tick :=
  { A := 1 } :: { F := 1 } :: List.replicate 39 quiet

/-- The state `s` with `a, b, c, d, e` more blocks of `A .. E` on the heavy
chain and `x, y, z` more blocks of `D, E, F` on the competing chain.  The
source has no such function: it is the common shape of what lines 199-289 do
in the phases of a race, used to state the phase lemmas below. -/
def credit (s : State) (a b c d e x y z : Nat) : State :=
  { s with heavyDepth := s.heavyDepth + a + (b + c) + (d + e),
           heavyA := s.heavyA + a,
           heavyB := s.heavyB + b,
           heavyC := s.heavyC + c,
           heavyD := s.heavyD + d,
           heavyE := s.heavyE + e,
           compDepth := s.compDepth + (x + y) + z,
           compD := s.compD + x,
           compE := s.compE + y,
           compF := s.compF + z }

/-- A state in which the value of `seenDE` has not been read since the last
Idle tick boundary and cannot be read before it is overwritten: nothing is on
the competing chain, and either no race is in progress or the heavy block has
not yet left the near phase. -/
def Unread (s : State) : Prop :=
  s.compDepth = 0 ∧
    (s.progressA = -1 ∧ s.heavyDepth = 0 ∨
      1 ≤ s.progressA ∧ s.progressA ≤ 41 ∧ 1 ≤ s.heavyDepth)

/-- A tick in which `A` alone finds two blocks. -/
def twoA : Tick := { A := 2 }

/-- A tick in which `A` alone finds three blocks. -/
def threeA : Tick := { A := 3 }

/-- A tick in which `D` alone finds a block. -/
def oneD : Tick := { D := 1 }

/-- A tick in which `B`, `C`, `D` and `F` find a block each. -/
def nearTick : Tick := { B := 1, C := 1, D := 1, F := 1 }

/-- A race that the competing chain wins: `A` finds the heavy block and `F`
answers with two blocks, after which the machine is Idle with `seenDE` still
set. -/
def lostRace : List Tick := [{ A := 1 }, { F := 2 }]

/-- A race in which `D` and `E` mine once the heavy block has reached them. -/
def laterRace : List Tick :=
  { A := 1 } :: (List.replicate 40 quiet ++ [{ D := 1 }, { E := 1, F := 1 }])

end UnlimitedBlocksize

namespace DifficultyAdjustment

/-- The constructor `big.NewRat(a, b)` of the Go library: the fraction `a / b`;
it panics when `b` is zero.  The arguments are `int64` values, modelled as
integers: the fraction is exact whatever their size. -/
def newRat (a b : Int) : Option ℚ :=
  if b = 0 then none else some ((a : ℚ) / (b : ℚ))

/-- Lines 21-29 of `Difficulty Adjustment/main.go`; `x.Cmp(y) > 0` is `x > y`
and `x.Cmp(y) < 0` is `x < y`. -/
def targetAdjustment0 (timePassed expectedTimePassed : Int) : Option ℚ :=
  match newRat timePassed expectedTimePassed with
  | none => none
  | some base =>
    if base > 1001 / 1000 then some (1001 / 1000)
    else if base < 999 / 1000 then some (999 / 1000)
    else some base

end DifficultyAdjustment

namespace UnlimitedBlocksize

/-! ## The tick body, phase by phase -/

theorem addF_eq (s : State) (t : Tick) :
    addF s t = { s with compDepth := s.compDepth + t.F, compF := s.compF + t.F } := by
  by_cases h : t.F > 0
  · simp [addF, h]
  · have h0 : t.F = 0 := by omega
    simp [addF, h0]

/-- The phases of a tick: the conditions cover every state and every success
vector. -/
theorem additions_cases (s : State) (t : Tick) :
    (s.progressA = -1 ∧ t.A = 0) ∨
    ((s.progressA = 0 ∨ s.progressA = -1 ∧ 0 < t.A) ∧ t.B + t.C + t.D + t.E + t.F = 0) ∨
    ((s.progressA = 0 ∨ s.progressA = -1 ∧ 0 < t.A) ∧ 0 < t.B + t.C + t.D + t.E + t.F) ∨
    ((s.progressA ≠ -1 ∧ s.progressA ≠ 0 ∧ s.progressA < 41) ∧ t.D + t.E + t.F = 0) ∨
    ((s.progressA ≠ -1 ∧ s.progressA ≠ 0 ∧ s.progressA < 41) ∧ 0 < t.D + t.E + t.F) ∨
    ((41 ≤ s.progressA ∧ s.progressA < 81) ∧
      s.heavyDepth + t.A + (t.B + t.C) > s.compDepth) ∨
    ((41 ≤ s.progressA ∧ s.progressA < 81) ∧
      s.heavyDepth + t.A + (t.B + t.C) ≤ s.compDepth ∧ s.seenDE = false) ∨
    ((41 ≤ s.progressA ∧ s.progressA < 81) ∧
      s.heavyDepth + t.A + (t.B + t.C) ≤ s.compDepth ∧ s.seenDE = true) ∨
    (81 ≤ s.progressA ∧ s.seenDE = false) ∨
    (81 ≤ s.progressA ∧ s.seenDE = true) := by
  cases hs : s.seenDE <;> simp <;> omega

/-- Lines 194-289 in each phase: the state after the additions of a tick, as
an update of the state at the start of the tick. -/
theorem additions_split (s : State) (t : Tick) :
    ((s.progressA = -1 ∧ t.A = 0) ∧ additions s t = acceptOthers s t) ∨
    (((s.progressA = 0 ∨ s.progressA = -1 ∧ 0 < t.A) ∧ t.B + t.C + t.D + t.E + t.F = 0) ∧
      additions s t = { credit s t.A 0 0 0 0 0 0 0 with progressA := 0 }) ∨
    (((s.progressA = 0 ∨ s.progressA = -1 ∧ 0 < t.A) ∧ 0 < t.B + t.C + t.D + t.E + t.F) ∧
      additions s t
        = acceptOthers { credit s t.A 0 0 0 0 0 0 0 with
            stalesA := s.stalesA + (s.heavyDepth + t.A), progressA := -1 } t) ∨
    (((s.progressA ≠ -1 ∧ s.progressA ≠ 0 ∧ s.progressA < 41) ∧ t.D + t.E + t.F = 0) ∧
      additions s t = credit s t.A t.B t.C 0 0 0 0 0) ∨
    (((s.progressA ≠ -1 ∧ s.progressA ≠ 0 ∧ s.progressA < 41) ∧ 0 < t.D + t.E + t.F) ∧
      additions s t = { credit s t.A t.B t.C 0 0 t.D t.E t.F with seenDE := true }) ∨
    (((41 ≤ s.progressA ∧ s.progressA < 81) ∧
        s.heavyDepth + t.A + (t.B + t.C) > s.compDepth) ∧
      additions s t = { credit s t.A t.B t.C t.D t.E 0 0 t.F with seenDE := false }) ∨
    (((41 ≤ s.progressA ∧ s.progressA < 81) ∧
        s.heavyDepth + t.A + (t.B + t.C) ≤ s.compDepth ∧ s.seenDE = false) ∧
      additions s t = credit s t.A t.B t.C t.D t.E 0 0 t.F) ∨
    (((41 ≤ s.progressA ∧ s.progressA < 81) ∧
        s.heavyDepth + t.A + (t.B + t.C) ≤ s.compDepth ∧ s.seenDE = true) ∧
      additions s t = credit s t.A t.B t.C 0 0 t.D t.E t.F) ∨
    ((81 ≤ s.progressA ∧ s.seenDE = false) ∧
      additions s t = credit s t.A t.B t.C t.D t.E 0 0 t.F) ∨
    ((81 ≤ s.progressA ∧ s.seenDE = true) ∧
      additions s t = credit s t.A t.B t.C 0 0 t.D t.E t.F) := by
  rcases additions_cases s t with h | h | h | h | h | h | h | h | h | h
  · refine Or.inl ⟨h, ?_⟩
    simp [additions, startHeavy, addA, spread, h.1, h.2, acceptOthers]
  · refine Or.inr (Or.inl ⟨h, ?_⟩)
    rcases h with ⟨h | ⟨h, hA⟩, hq⟩
    · simp [additions, startHeavy, addA, spread, h, abandon, hq, credit]
    · simp [additions, startHeavy, addA, spread, h, abandon, hq, hA, credit]
  · refine Or.inr (Or.inr (Or.inl ⟨h, ?_⟩))
    rcases h with ⟨h | ⟨h, hA⟩, hq⟩
    · simp [additions, startHeavy, addA, spread, h, abandon, hq, credit]
    · simp [additions, startHeavy, addA, spread, h, abandon, hq, hA, credit]
  · refine Or.inr (Or.inr (Or.inr (Or.inl ⟨h, ?_⟩)))
    obtain ⟨⟨h1, h0, h41⟩, hq⟩ := h
    simp [additions, startHeavy, addA, spread, h1, h0, h41, nearPhase, addBC, hq, credit]
  · refine Or.inr (Or.inr (Or.inr (Or.inr (Or.inl ⟨h, ?_⟩))))
    obtain ⟨⟨h1, h0, h41⟩, hq⟩ := h
    simp [additions, startHeavy, addA, spread, h1, h0, h41, nearPhase, addBC, hq, credit]
    omega
  · refine Or.inr (Or.inr (Or.inr (Or.inr (Or.inr (Or.inl ⟨h, ?_⟩)))))
    obtain ⟨⟨h41, h81⟩, hgt⟩ := h
    have h1 : s.progressA ≠ -1 := by omega
    have h0 : s.progressA ≠ 0 := by omega
    have h2 : ¬ s.progressA < 41 := by omega
    simp [additions, startHeavy, addA, spread, h1, h0, h2, h81, midPhase, addBC, addF_eq,
      addDE, hgt, credit]
  · refine Or.inr (Or.inr (Or.inr (Or.inr (Or.inr (Or.inr (Or.inl ⟨h, ?_⟩))))))
    obtain ⟨⟨h41, h81⟩, hle, hseen⟩ := h
    have h1 : s.progressA ≠ -1 := by omega
    have h0 : s.progressA ≠ 0 := by omega
    have h2 : ¬ s.progressA < 41 := by omega
    have h3 : ¬ s.heavyDepth + t.A + (t.B + t.C) > s.compDepth := by omega
    simp [additions, startHeavy, addA, spread, h1, h0, h2, h81, midPhase, addBC, addF_eq,
      addDE, h3, hseen, credit]
  · refine Or.inr (Or.inr (Or.inr (Or.inr (Or.inr (Or.inr (Or.inr (Or.inl ⟨h, ?_⟩)))))))
    obtain ⟨⟨h41, h81⟩, hle, hseen⟩ := h
    have h1 : s.progressA ≠ -1 := by omega
    have h0 : s.progressA ≠ 0 := by omega
    have h2 : ¬ s.progressA < 41 := by omega
    have h3 : ¬ s.heavyDepth + t.A + (t.B + t.C) > s.compDepth := by omega
    simp [additions, startHeavy, addA, spread, h1, h0, h2, h81, midPhase, addBC, addF_eq,
      addDE, h3, hseen, credit]
  · refine Or.inr (Or.inr (Or.inr (Or.inr (Or.inr (Or.inr (Or.inr (Or.inr (Or.inl ⟨h, ?_⟩))))))))
    obtain ⟨h81, hseen⟩ := h
    have h1 : s.progressA ≠ -1 := by omega
    have h0 : s.progressA ≠ 0 := by omega
    have h2 : ¬ s.progressA < 41 := by omega
    have h3 : ¬ s.progressA < 81 := by omega
    simp [additions, startHeavy, addA, spread, h1, h0, h2, h3, farPhase, addBC, addF_eq,
      addDE, hseen, credit]
  · refine Or.inr (Or.inr (Or.inr (Or.inr (Or.inr (Or.inr (Or.inr (Or.inr (Or.inr ⟨h, ?_⟩))))))))
    obtain ⟨h81, hseen⟩ := h
    have h1 : s.progressA ≠ -1 := by omega
    have h0 : s.progressA ≠ 0 := by omega
    have h2 : ¬ s.progressA < 41 := by omega
    have h3 : ¬ s.progressA < 81 := by omega
    simp [additions, startHeavy, addA, spread, h1, h0, h2, h3, farPhase, addBC, addF_eq,
      addDE, hseen, credit]

/-- Lines 290-340 case by case: the competing chain wins, the heavy block
propagates for one more second, the heavy chain wins, or nothing happens. -/
theorem resolve_split (m : State) :
    (m.compDepth > m.heavyDepth ∧ resolve m = dropHeavy m) ∨
    ((m.compDepth ≤ m.heavyDepth ∧ m.progressA ≠ -1 ∧ m.progressA < 82) ∧
      resolve m = { m with progressA := m.progressA + 1 }) ∨
    ((m.compDepth < m.heavyDepth ∧ (m.progressA = -1 ∨ m.progressA = 82)) ∧
      resolve m = acceptHeavy m) ∨
    ((m.compDepth = m.heavyDepth ∧ (m.progressA = -1 ∨ m.progressA = 82)
        ∨ m.compDepth ≤ m.heavyDepth ∧ 82 < m.progressA) ∧
      resolve m = m) := by
  have hcases : m.compDepth > m.heavyDepth ∨
      (m.compDepth ≤ m.heavyDepth ∧ m.progressA ≠ -1 ∧ m.progressA < 82) ∨
      (m.compDepth < m.heavyDepth ∧ (m.progressA = -1 ∨ m.progressA = 82)) ∨
      (m.compDepth = m.heavyDepth ∧ (m.progressA = -1 ∨ m.progressA = 82)
        ∨ m.compDepth ≤ m.heavyDepth ∧ 82 < m.progressA) := by omega
  rcases hcases with h | h | h | h
  · refine Or.inl ⟨h, ?_⟩
    simp [resolve, compWins, h, advance, dropHeavy]
  · refine Or.inr (Or.inl ⟨h, ?_⟩)
    have h' : ¬ m.compDepth > m.heavyDepth := by omega
    simp [resolve, compWins, h', advance, h.2.1, h.2.2]
  · refine Or.inr (Or.inr (Or.inl ⟨h, ?_⟩))
    have h' : ¬ m.compDepth > m.heavyDepth := by omega
    rcases h with ⟨h, hp | hp⟩ <;> simp [resolve, compWins, h', advance, hp, h]
  · refine Or.inr (Or.inr (Or.inr ⟨h, ?_⟩))
    rcases h with ⟨h, hp | hp⟩ | ⟨h, hp⟩
    · simp [resolve, compWins, h, advance, hp]
    · simp [resolve, compWins, h, advance, hp]
    · have h' : ¬ m.compDepth > m.heavyDepth := by omega
      have h1 : ¬ m.progressA < 82 := by omega
      have h2 : ¬ m.progressA ≤ 82 := by omega
      simp [resolve, compWins, h', advance, h1, h2]

/-! ## The invariant of the loop -/

theorem inv_init : Inv init := by
  constructor <;> simp [init]

theorem inv_tick (s : State) (t : Tick) (h : Inv s) : Inv (tick s t) := by
  obtain ⟨h1, h2, h3, h4, h5, h6, h7, h8, h9, h10, h11, h12, h13, h14⟩ := h
  unfold tick
  rcases additions_split s t with ⟨hc, he⟩ | ⟨hc, he⟩ | ⟨hc, he⟩ | ⟨hc, he⟩ | ⟨hc, he⟩ |
      ⟨hc, he⟩ | ⟨hc, he⟩ | ⟨hc, he⟩ | ⟨hc, he⟩ | ⟨hc, he⟩ <;>
    rcases resolve_split (additions s t) with ⟨hd, hr⟩ | ⟨hd, hr⟩ | ⟨hd, hr⟩ | ⟨hd, hr⟩ <;>
    rw [hr] <;> rw [he] at hd ⊢ <;>
    simp only [credit, acceptOthers, dropHeavy, acceptHeavy] at hd ⊢ <;>
    constructor <;> simp only [] <;> first | omega | simp

theorem inv_run (s : State) (ts : List Tick) (h : Inv s) : Inv (run s ts) := by
  induction ts generalizing s with
  | nil => exact h
  | cons t ts ih => exact ih (tick s t) (inv_tick s t h)

theorem inv_of_reachable {s : State} (h : Reachable s) : Inv s := by
  obtain ⟨ts, rfl⟩ := h
  exact inv_run init ts inv_init

theorem run_cons (s : State) (t : Tick) (ts : List Tick) :
    run s (t :: ts) = run (tick s t) ts := rfl

theorem fed_cons (t : Tick) (ts : List Tick) : fed (t :: ts) = t.total + fed ts := by
  simp [fed]

theorem abandons_iff (s : State) (t : Tick) :
    abandons s t ↔
      (s.progressA = 0 ∨ s.progressA = -1 ∧ 0 < t.A) ∧ 0 < t.B + t.C + t.D + t.E + t.F := by
  unfold abandons startHeavy addA
  split_ifs with h <;> simp only [true_and] <;> omega

set_option maxRecDepth 100000 in
theorem run_tieTicks :
    run init tieTicks
      = { heavyA := 1, compF := 1, heavyDepth := 1, compDepth := 1, seenDE := true,
          progressA := 82 } := by
  rfl

set_option maxRecDepth 100000 in
theorem run_midTieTicks :
    run init midTieTicks
      = { heavyA := 1, compF := 1, heavyDepth := 1, compDepth := 1, seenDE := true,
          progressA := 41 } := by
  rfl

/-! ## Conservation -/

/-- A tick that does not take the branch of lines 214-223 neither loses nor
invents a block. -/
theorem tick_conserves (s : State) (t : Tick) (h : ¬ abandons s t) :
    ledger (tick s t) + provisional (tick s t) = ledger s + provisional s + t.total := by
  rw [abandons_iff] at h
  unfold tick
  rcases additions_split s t with ⟨hc, he⟩ | ⟨hc, he⟩ | ⟨hc, he⟩ | ⟨hc, he⟩ | ⟨hc, he⟩ |
      ⟨hc, he⟩ | ⟨hc, he⟩ | ⟨hc, he⟩ | ⟨hc, he⟩ | ⟨hc, he⟩ <;>
    rcases resolve_split (additions s t) with ⟨hd, hr⟩ | ⟨hd, hr⟩ | ⟨hd, hr⟩ | ⟨hd, hr⟩ <;>
    rw [hr] <;> rw [he] at hd ⊢ <;>
    simp only [credit, acceptOthers, dropHeavy, acceptHeavy, ledger, provisional,
      Tick.total] at hd ⊢ <;>
    omega

theorem run_conserves (s : State) (ts : List Tick) (h : NoAbandon s ts) :
    ledger (run s ts) + provisional (run s ts) = ledger s + provisional s + fed ts := by
  induction ts generalizing s with
  | nil => simp [run, fed]
  | cons t ts ih =>
    obtain ⟨h1, h2⟩ := h
    rw [run_cons, ih (tick s t) h2, tick_conserves s t h1, fed_cons]
    ring

/-- At an Idle tick boundary every provisional counter is zero. -/
theorem provisional_idle {s : State} (h : Inv s) (hp : s.progressA = -1) :
    s.heavyA = 0 ∧ s.heavyB = 0 ∧ s.heavyC = 0 ∧ s.heavyD = 0 ∧ s.heavyE = 0 ∧
    s.compD = 0 ∧ s.compE = 0 ∧ s.compF = 0 := by
  obtain ⟨h1, h2, h3, h4, h5, h6, h7, h8, h9, h10, h11, h12, h13, h14⟩ := h
  have := h12 hp
  omega

/-- What the tick of lines 214-223 does from an Idle tick boundary: the blocks
of `A` are entered in `stalesA` by line 216 and, because `heavyA` and
`heavyDepth` are not reset there, in `blocksA` by line 322 as well. -/
theorem abandon_tick (s : State) (hs : Inv s) (t : Tick) (hp : s.progressA = -1)
    (hA : 0 < t.A) (hq : 0 < t.B + t.C + t.D + t.E + t.F) :
    (tick s t).stalesA = s.stalesA + t.A ∧ (tick s t).blocksA = s.blocksA + t.A ∧
    (tick s t).blocksB = s.blocksB + t.B ∧ (tick s t).blocksC = s.blocksC + t.C ∧
    (tick s t).blocksD = s.blocksD + t.D ∧ (tick s t).blocksE = s.blocksE + t.E ∧
    (tick s t).blocksF = s.blocksF + t.F ∧ Cleared (tick s t) := by
  obtain ⟨h1, h2, h3, h4, h5, h6, h7, h8, h9, h10, h11, h12, h13, h14⟩ := hs
  unfold tick Cleared
  rcases additions_split s t with ⟨hc, he⟩ | ⟨hc, he⟩ | ⟨hc, he⟩ | ⟨hc, he⟩ | ⟨hc, he⟩ |
      ⟨hc, he⟩ | ⟨hc, he⟩ | ⟨hc, he⟩ | ⟨hc, he⟩ | ⟨hc, he⟩ <;>
    rcases resolve_split (additions s t) with ⟨hd, hr⟩ | ⟨hd, hr⟩ | ⟨hd, hr⟩ | ⟨hd, hr⟩ <;>
    rw [hr] <;> rw [he] at hd ⊢ <;>
    simp only [credit, acceptOthers, dropHeavy, acceptHeavy] at hd ⊢ <;>
    first | omega | (and_intros <;> first | trivial | omega)

/-- Claim C1. Conservation fails on the code: in a tick from the initial state
in which `A` and `B` both find a block, the block of `A` is entered in `stalesA`
and, a few lines later, in `blocksA` as well, so the ledger and the provisional
counters together hold three blocks when two were found. -/
theorem abandoned_block_counted_twice :
    fed [{ A := 1, B := 1 }] = 2 ∧
    ledger (run init [{ A := 1, B := 1 }]) + provisional (run init [{ A := 1, B := 1 }]) = 3 ∧
    (run init [{ A := 1, B := 1 }]).stalesA = 1 ∧
    (run init [{ A := 1, B := 1 }]).blocksA = 1 ∧
    (run init [{ A := 1, B := 1 }]).blocksB = 1 := by
  decide

/-- Claim C2. The immediate-abandon rule fails on the code: from the initial
(Idle) state, in a tick in which `A` finds two blocks and `F` finds one,
`stalesA` grows by two and `blocksF` by one, the machine is Idle again, but
`blocksA` has grown by two as well instead of staying unchanged. -/
theorem abandon_also_accepts_heavy :
    init.progressA = -1 ∧
    (tick init { A := 2, F := 1 }).stalesA = init.stalesA + 2 ∧
    (tick init { A := 2, F := 1 }).blocksF = init.blocksF + 1 ∧
    (tick init { A := 2, F := 1 }).progressA = -1 ∧
    (tick init { A := 2, F := 1 }).blocksA = init.blocksA + 2 := by
  decide

/-- Claim C4, counterexample. After one tick in which only `A` finds a block
the block is provisional: the twelve ledger counters sum to zero although one
success has been generated. -/
theorem ledger_lags_during_race :
    ledger (run init [{ A := 1 }]) = 0 ∧ fed [{ A := 1 }] = 1 := by
  decide

/-- Claim C4, amended. In a run from the initial state in which no tick takes
the immediate-abandon branch, at every tick boundary the twelve ledger counters
plus the eight provisional counters sum to the successes generated so far; at
a boundary with no race in progress the ledger counters alone do. -/
theorem conservation_without_abandon (ts : List Tick) (h : NoAbandon init ts) :
    ledger (run init ts) + provisional (run init ts) = fed ts ∧
    ((run init ts).progressA = -1 → ledger (run init ts) = fed ts) := by
  have hc := run_conserves init ts h
  have h0 : ledger init + provisional init = 0 := by decide
  refine ⟨by omega, fun hp => ?_⟩
  have hz := provisional_idle (inv_run init ts inv_init) hp
  have hprov : provisional (run init ts) = 0 := by
    unfold provisional
    omega
  omega

theorem conservation_without_abandon_witness :
    NoAbandon init [{ A := 1 }, { B := 1, F := 1 }, { F := 2 }] ∧
    (run init [{ A := 1 }, { B := 1, F := 1 }, { F := 2 }]).progressA = -1 ∧
    ledger (run init [{ A := 1 }, { B := 1, F := 1 }, { F := 2 }])
      + provisional (run init [{ A := 1 }, { B := 1, F := 1 }, { F := 2 }])
      = fed [{ A := 1 }, { B := 1, F := 1 }, { F := 2 }] ∧
    ledger (run init [{ A := 1 }, { B := 1, F := 1 }, { F := 2 }])
      = fed [{ A := 1 }, { B := 1, F := 1 }, { F := 2 }] :=
  ⟨by decide, by decide,
    (conservation_without_abandon [{ A := 1 }, { B := 1, F := 1 }, { F := 2 }] (by decide)).1,
    (conservation_without_abandon [{ A := 1 }, { B := 1, F := 1 }, { F := 2 }] (by decide)).2
      (by decide)⟩

/-! ## The full-propagation horizon -/

/-- Claim C3, counterexample. After `tieTicks` the heavy block is fully
propagated (`progressA = 82`) and both chains have depth one.  A quiet tick
leaves the depths level, and the heavy chain does not win: the machine is still
racing at 82 and `blocksA` has not received the provisional block of `A`. -/
theorem tie_at_horizon_unresolved :
    (run init tieTicks).progressA = 82 ∧
    (additions (run init tieTicks) quiet).heavyDepth
      = (additions (run init tieTicks) quiet).compDepth ∧
    (additions (run init tieTicks) quiet).heavyA = 1 ∧
    (tick (run init tieTicks) quiet).progressA = 82 ∧
    (tick (run init tieTicks) quiet).blocksA = (run init tieTicks).blocksA := by
  rw [run_tieTicks]
  decide

/-- Claim C3, amended. For every state, reachable or not, at the
full-propagation horizon: a tick after whose
additions the two depths are equal does not resolve the race: the tick ends in
the state its additions produced, `progressA` is still 82 and none of the
twelve ledger counters has changed. -/
theorem tie_at_horizon_continues (s : State) (t : Tick)
    (h82 : s.progressA = 82)
    (htie : (additions s t).heavyDepth = (additions s t).compDepth) :
    tick s t = additions s t ∧ (tick s t).progressA = 82 ∧ SameLedger s (tick s t) := by
  unfold tick SameLedger
  rcases additions_split s t with ⟨hc, he⟩ | ⟨hc, he⟩ | ⟨hc, he⟩ | ⟨hc, he⟩ | ⟨hc, he⟩ |
      ⟨hc, he⟩ | ⟨hc, he⟩ | ⟨hc, he⟩ | ⟨hc, he⟩ | ⟨hc, he⟩ <;>
    rcases resolve_split (additions s t) with ⟨hd, hr⟩ | ⟨hd, hr⟩ | ⟨hd, hr⟩ | ⟨hd, hr⟩ <;>
    rw [hr] <;> rw [he] at hd htie ⊢ <;>
    simp only [credit, acceptOthers, dropHeavy, acceptHeavy] at hd htie ⊢ <;>
    and_intros <;> first | trivial | omega

theorem tie_at_horizon_continues_witness :
    Reachable (run init tieTicks) ∧ (run init tieTicks).progressA = 82 ∧
    (additions (run init tieTicks) quiet).heavyDepth
      = (additions (run init tieTicks) quiet).compDepth ∧
    tick (run init tieTicks) quiet = additions (run init tieTicks) quiet ∧
    (tick (run init tieTicks) quiet).progressA = 82 ∧
    SameLedger (run init tieTicks) (tick (run init tieTicks) quiet) :=
  ⟨⟨tieTicks, rfl⟩, by rw [run_tieTicks],  by rw [run_tieTicks]; decide,
    tie_at_horizon_continues (run init tieTicks) quiet
      (by rw [run_tieTicks]) (by rw [run_tieTicks]; decide)⟩

/-! ## Idle correctness -/

theorem tick_idle_quiet (s : State) (t : Tick) (hp : s.progressA = -1)
    (hh : s.heavyDepth = 0) (hk : s.compDepth = 0) (hA : t.A = 0) :
    tick s t = acceptOthers s t := by
  unfold tick
  rcases additions_split s t with ⟨hc, he⟩ | ⟨hc, he⟩ | ⟨hc, he⟩ | ⟨hc, he⟩ | ⟨hc, he⟩ |
      ⟨hc, he⟩ | ⟨hc, he⟩ | ⟨hc, he⟩ | ⟨hc, he⟩ | ⟨hc, he⟩ <;>
    rcases resolve_split (additions s t) with ⟨hd, hr⟩ | ⟨hd, hr⟩ | ⟨hd, hr⟩ | ⟨hd, hr⟩ <;>
    rw [he] at hd hr ⊢ <;>
    simp only [credit, acceptOthers, dropHeavy, acceptHeavy] at hd <;>
    first | exact hr | omega

theorem acceptOthers_fields (s : State) (t : Tick) :
    (acceptOthers s t).stalesA = s.stalesA ∧ (acceptOthers s t).stalesB = s.stalesB ∧
    (acceptOthers s t).stalesC = s.stalesC ∧ (acceptOthers s t).stalesD = s.stalesD ∧
    (acceptOthers s t).stalesE = s.stalesE ∧ (acceptOthers s t).stalesF = s.stalesF ∧
    (acceptOthers s t).blocksA = s.blocksA ∧
    (acceptOthers s t).blocksB = s.blocksB + t.B ∧
    (acceptOthers s t).blocksC = s.blocksC + t.C ∧
    (acceptOthers s t).blocksD = s.blocksD + t.D ∧
    (acceptOthers s t).blocksE = s.blocksE + t.E ∧
    (acceptOthers s t).blocksF = s.blocksF + t.F :=
  ⟨rfl, rfl, rfl, rfl, rfl, rfl, rfl, rfl, rfl, rfl, rfl, rfl⟩

theorem run_idle (s : State) (ts : List Tick) (hp : s.progressA = -1)
    (hh : s.heavyDepth = 0) (hk : s.compDepth = 0) (hA : ∀ t ∈ ts, t.A = 0) :
    (run s ts).progressA = -1 ∧ (run s ts).heavyDepth = 0 ∧ (run s ts).compDepth = 0 ∧
    (run s ts).stalesA = s.stalesA ∧ (run s ts).stalesB = s.stalesB ∧
    (run s ts).stalesC = s.stalesC ∧ (run s ts).stalesD = s.stalesD ∧
    (run s ts).stalesE = s.stalesE ∧ (run s ts).stalesF = s.stalesF ∧
    (run s ts).blocksA = s.blocksA ∧
    (run s ts).blocksB = s.blocksB + (ts.map Tick.B).sum ∧
    (run s ts).blocksC = s.blocksC + (ts.map Tick.C).sum ∧
    (run s ts).blocksD = s.blocksD + (ts.map Tick.D).sum ∧
    (run s ts).blocksE = s.blocksE + (ts.map Tick.E).sum ∧
    (run s ts).blocksF = s.blocksF + (ts.map Tick.F).sum := by
  induction ts generalizing s with
  | nil => simp [run, hp, hh, hk]
  | cons t ts ih =>
    have hA0 : t.A = 0 := hA t (List.mem_cons_self t ts)
    have hrest : ∀ u ∈ ts, u.A = 0 := fun u hu => hA u (List.mem_cons_of_mem t hu)
    have ih' := ih (acceptOthers s t) hp hh hk hrest
    have hf := acceptOthers_fields s t
    simp only [run_cons, List.map_cons, List.sum_cons, Nat.cast_add]
    rw [tick_idle_quiet s t hp hh hk hA0]
    omega

/-- Claim C5. Idle correctness: in a run from the initial state in which `A`
finds no block in any tick, after every tick `progressA` is -1, the six stale
counters and `blocksA` are zero, and each of `blocksB .. blocksF` is the sum of
that miner's successes so far. -/
theorem idle_correctness (ts : List Tick) (hA : ∀ t ∈ ts, t.A = 0) :
    (run init ts).progressA = -1 ∧
    (run init ts).stalesA = 0 ∧ (run init ts).stalesB = 0 ∧ (run init ts).stalesC = 0 ∧
    (run init ts).stalesD = 0 ∧ (run init ts).stalesE = 0 ∧ (run init ts).stalesF = 0 ∧
    (run init ts).blocksA = 0 ∧
    (run init ts).blocksB = (ts.map Tick.B).sum ∧
    (run init ts).blocksC = (ts.map Tick.C).sum ∧
    (run init ts).blocksD = (ts.map Tick.D).sum ∧
    (run init ts).blocksE = (ts.map Tick.E).sum ∧
    (run init ts).blocksF = (ts.map Tick.F).sum := by
  have h := run_idle init ts rfl rfl rfl hA
  have h0 : init.stalesA = 0 ∧ init.stalesB = 0 ∧ init.stalesC = 0 ∧ init.stalesD = 0 ∧
      init.stalesE = 0 ∧ init.stalesF = 0 ∧ init.blocksA = 0 ∧ init.blocksB = 0 ∧
      init.blocksC = 0 ∧ init.blocksD = 0 ∧ init.blocksE = 0 ∧ init.blocksF = 0 := by
    decide
  omega

theorem idle_correctness_witness :
    (∀ t ∈ [({ B := 2, F := 1 } : Tick), { D := 1 }, { B := 1, C := 3 }], t.A = 0) ∧
    (run init [{ B := 2, F := 1 }, { D := 1 }, { B := 1, C := 3 }]).progressA = -1 ∧
    (run init [{ B := 2, F := 1 }, { D := 1 }, { B := 1, C := 3 }]).stalesA = 0 ∧
    (run init [{ B := 2, F := 1 }, { D := 1 }, { B := 1, C := 3 }]).blocksB = 3 :=
  ⟨by decide,
    (idle_correctness [{ B := 2, F := 1 }, { D := 1 }, { B := 1, C := 3 }] (by decide)).1,
    (idle_correctness [{ B := 2, F := 1 }, { D := 1 }, { B := 1, C := 3 }] (by decide)).2.1,
    by decide⟩

/-! ## The competing chain wins -/

/-- Claim C6. Competing-chain win: from a reachable state, a tick after whose
additions `compDepth > heavyDepth` ends with `stalesA .. stalesE` increased by
the provisional `heavyA .. heavyE` (this tick's additions included),
`blocksD, blocksE, blocksF` increased by `compD, compE, compF`, the other four
ledger counters unchanged, `progressA = -1`, and both depths and all eight
provisional counters zero. -/
theorem competing_chain_wins (s : State) (hs : Reachable s) (t : Tick)
    (h : (additions s t).compDepth > (additions s t).heavyDepth) :
    (tick s t).stalesA = s.stalesA + (additions s t).heavyA ∧
    (tick s t).stalesB = s.stalesB + (additions s t).heavyB ∧
    (tick s t).stalesC = s.stalesC + (additions s t).heavyC ∧
    (tick s t).stalesD = s.stalesD + (additions s t).heavyD ∧
    (tick s t).stalesE = s.stalesE + (additions s t).heavyE ∧
    (tick s t).blocksD = s.blocksD + (additions s t).compD ∧
    (tick s t).blocksE = s.blocksE + (additions s t).compE ∧
    (tick s t).blocksF = s.blocksF + (additions s t).compF ∧
    (tick s t).blocksA = s.blocksA ∧ (tick s t).blocksB = s.blocksB ∧
    (tick s t).blocksC = s.blocksC ∧ (tick s t).stalesF = s.stalesF ∧
    Cleared (tick s t) := by
  obtain ⟨h1, h2, h3, h4, h5, h6, h7, h8, h9, h10, h11, h12, h13, h14⟩ := inv_of_reachable hs
  unfold tick Cleared
  rcases additions_split s t with ⟨hc, he⟩ | ⟨hc, he⟩ | ⟨hc, he⟩ | ⟨hc, he⟩ | ⟨hc, he⟩ |
      ⟨hc, he⟩ | ⟨hc, he⟩ | ⟨hc, he⟩ | ⟨hc, he⟩ | ⟨hc, he⟩ <;>
    rcases resolve_split (additions s t) with ⟨hd, hr⟩ | ⟨hd, hr⟩ | ⟨hd, hr⟩ | ⟨hd, hr⟩ <;>
    rw [hr] <;> rw [he] at hd h ⊢ <;>
    simp only [credit, acceptOthers, dropHeavy, acceptHeavy] at hd h ⊢ <;>
    first | omega | (and_intros <;> trivial)

theorem competing_chain_wins_witness :
    (additions (run init oneA) { F := 2 }).compDepth
      > (additions (run init oneA) { F := 2 }).heavyDepth ∧
    (tick (run init oneA) { F := 2 }).stalesA
      = (run init oneA).stalesA + (additions (run init oneA) { F := 2 }).heavyA ∧
    (tick (run init oneA) { F := 2 }).blocksF
      = (run init oneA).blocksF + (additions (run init oneA) { F := 2 }).compF ∧
    Cleared (tick (run init oneA) { F := 2 }) :=
  have h := competing_chain_wins (run init oneA) ⟨oneA, rfl⟩ { F := 2 } (by decide)
  ⟨by decide, h.1, h.2.2.2.2.2.2.2.1, h.2.2.2.2.2.2.2.2.2.2.2.2⟩

/-! ## The Idle invariant -/

/-- Claim C7. Idle invariant: at every tick boundary of every run from the
initial state, if no race is in progress (`progressA = -1`) then both depths
and all eight per-miner provisional counters are zero. -/
theorem idle_invariant (ts : List Tick) (h : (run init ts).progressA = -1) :
    Cleared (run init ts) := by
  have hi := inv_run init ts inv_init
  have hz := provisional_idle hi h
  have hd := hi.idle h
  exact ⟨h, hd.1, hd.2, hz⟩

theorem idle_invariant_witness :
    (run init [{ A := 1 }, { F := 2 }]).progressA = -1 ∧
    Cleared (run init [{ A := 1 }, { F := 2 }]) :=
  ⟨by decide, idle_invariant [{ A := 1 }, { F := 2 }] (by decide)⟩

/-! ## Past the horizon -/

/-- Claim C8, counterexample. After `tieTicks` the heavy block is fully
propagated (`progressA = 82`) with one provisional block of `A` on the heavy
chain.  In the next tick `F` finds a block: the competing chain is ahead, the
race resolves in its favour and the block of `A` is moved into `stalesA`. -/
theorem horizon_passed_competing_chain_still_wins :
    (run init tieTicks).progressA = 82 ∧
    (run init tieTicks).heavyA = 1 ∧
    (run init tieTicks).stalesA = 0 ∧
    (tick (run init tieTicks) { F := 1 }).stalesA = 1 ∧
    (tick (run init tieTicks) { F := 1 }).blocksF = 2 ∧
    (tick (run init tieTicks) { F := 1 }).progressA = -1 := by
  rw [run_tieTicks]
  decide

/-- In the last phase the additions of a tick touch neither `progressA` nor
the ledger. -/
theorem additions_at_horizon (s : State) (t : Tick) (h81 : 81 ≤ s.progressA) :
    (additions s t).progressA = s.progressA ∧ SameLedger s (additions s t) := by
  unfold SameLedger
  rcases additions_split s t with ⟨hc, he⟩ | ⟨hc, he⟩ | ⟨hc, he⟩ | ⟨hc, he⟩ | ⟨hc, he⟩ |
      ⟨hc, he⟩ | ⟨hc, he⟩ | ⟨hc, he⟩ | ⟨hc, he⟩ | ⟨hc, he⟩ <;>
    rw [he] <;> simp only [credit, acceptOthers] <;>
    first | omega | (and_intros <;> trivial)

/-- The two resolution checks when the heavy block is fully propagated: the
chain that is strictly ahead wins, and level chains stay as they are. -/
theorem resolve_at_horizon (m : State) (h82 : m.progressA = 82) :
    (m.compDepth > m.heavyDepth → resolve m = dropHeavy m) ∧
    (m.compDepth < m.heavyDepth → resolve m = acceptHeavy m) ∧
    (m.compDepth = m.heavyDepth → resolve m = m) := by
  rcases resolve_split m with ⟨hd, hr⟩ | ⟨hd, hr⟩ | ⟨hd, hr⟩ | ⟨hd, hr⟩ <;>
    refine ⟨fun h => ?_, fun h => ?_, fun h => ?_⟩ <;>
    first | exact hr | omega

/-- Claim C8, amended. For every state with `progressA = 82`, reachable or not,
and every tick: the race is resolved in favour of the competing chain (lines
293-313) exactly when `compDepth > heavyDepth` after the additions of the tick;
when `compDepth <= heavyDepth` the heavy chain is accepted or nothing is
resolved, `stalesA, stalesB, stalesC` are unchanged, and `stalesD, stalesE`
receive at most the competing-chain blocks `compD, compE`. -/
theorem past_horizon_resolution (s : State) (t : Tick) (h82 : s.progressA = 82) :
    ((additions s t).compDepth > (additions s t).heavyDepth →
      tick s t = dropHeavy (additions s t)) ∧
    ((additions s t).compDepth ≤ (additions s t).heavyDepth →
      (tick s t = acceptHeavy (additions s t) ∨ tick s t = additions s t) ∧
      (tick s t).stalesA = s.stalesA ∧ (tick s t).stalesB = s.stalesB ∧
      (tick s t).stalesC = s.stalesC ∧
      ((tick s t).stalesD = s.stalesD ∨
        (tick s t).stalesD = s.stalesD + (additions s t).compD) ∧
      ((tick s t).stalesE = s.stalesE ∨
        (tick s t).stalesE = s.stalesE + (additions s t).compE)) := by
  obtain ⟨hp, hl⟩ := additions_at_horizon s t (by omega)
  obtain ⟨r1, r2, r3⟩ := resolve_at_horizon (additions s t) (by omega)
  unfold SameLedger at hl
  unfold tick
  refine ⟨r1, fun h => ?_⟩
  rcases lt_or_eq_of_le h with h' | h'
  · rw [r2 h']
    refine ⟨Or.inl rfl, ?_⟩
    simp only [acceptHeavy]
    omega
  · rw [r3 h']
    refine ⟨Or.inr rfl, ?_⟩
    omega

theorem past_horizon_resolution_witness :
    (run init tieTicks).progressA = 82 ∧
    (additions (run init tieTicks) { F := 1 }).compDepth
      > (additions (run init tieTicks) { F := 1 }).heavyDepth ∧
    tick (run init tieTicks) { F := 1 } = dropHeavy (additions (run init tieTicks) { F := 1 }) ∧
    (additions (run init tieTicks) { B := 1 }).compDepth
      ≤ (additions (run init tieTicks) { B := 1 }).heavyDepth ∧
    (tick (run init tieTicks) { B := 1 }).stalesA = (run init tieTicks).stalesA :=
  ⟨by rw [run_tieTicks],
    by rw [run_tieTicks]; decide,
    (past_horizon_resolution (run init tieTicks) { F := 1 } (by rw [run_tieTicks])).1
      (by rw [run_tieTicks]; decide),
    by rw [run_tieTicks]; decide,
    ((past_horizon_resolution (run init tieTicks) { B := 1 } (by rw [run_tieTicks])).2
      (by rw [run_tieTicks]; decide)).2.1⟩

/-! ## The allegiance of `D` and `E` -/

/-- Claim C9, counterexample. After `midTieTicks` a race is in progress at
`progressA = 41` with `seenDE` set and both chains at depth one.  In the next
tick `B` finds a block: the race is not resolved (`progressA` becomes 42), yet
`seenDE` is false after the tick. -/
theorem seenDE_reset_mid_race :
    (run init midTieTicks).progressA = 41 ∧
    (run init midTieTicks).seenDE = true ∧
    (tick (run init midTieTicks) { B := 1 }).progressA = 42 ∧
    (tick (run init midTieTicks) { B := 1 }).seenDE = false := by
  rw [run_midTieTicks]
  decide

/-- Claim C9, amended. For every state with `seenDE = true` and every tick (in
particular a reachable Racing state and a tick that does not resolve the race),
`seenDE` is still true after the tick unless the tick starts in the mid phase
(`41 <= progressA <= 80`) with `heavyDepth + A + B + C > compDepth`, in which
case line 248 resets it to false. -/
theorem seenDE_kept_unless_heavy_ahead_mid (s : State) (t : Tick)
    (hseen : s.seenDE = true) :
    (tick s t).seenDE = true ↔
      ¬ (41 ≤ s.progressA ∧ s.progressA ≤ 80 ∧
          s.heavyDepth + t.A + t.B + t.C > s.compDepth) := by
  unfold tick
  rcases additions_split s t with ⟨hc, he⟩ | ⟨hc, he⟩ | ⟨hc, he⟩ | ⟨hc, he⟩ | ⟨hc, he⟩ |
      ⟨hc, he⟩ | ⟨hc, he⟩ | ⟨hc, he⟩ | ⟨hc, he⟩ | ⟨hc, he⟩ <;>
    rcases resolve_split (additions s t) with ⟨hd, hr⟩ | ⟨hd, hr⟩ | ⟨hd, hr⟩ | ⟨hd, hr⟩ <;>
    rw [hr] <;> rw [he] <;>
    simp only [credit, acceptOthers, dropHeavy, acceptHeavy, hseen] <;>
    first | omega | (simp only [true_iff]; omega) | (simp; omega)

theorem seenDE_kept_unless_heavy_ahead_mid_witness :
    (run init midTieTicks).seenDE = true ∧
    ((tick (run init midTieTicks) quiet).seenDE = true ↔
      ¬ (41 ≤ (run init midTieTicks).progressA ∧ (run init midTieTicks).progressA ≤ 80 ∧
          (run init midTieTicks).heavyDepth + quiet.A + quiet.B + quiet.C
            > (run init midTieTicks).compDepth)) :=
  ⟨by rw [run_midTieTicks],
    seenDE_kept_unless_heavy_ahead_mid (run init midTieTicks) quiet
      (by rw [run_midTieTicks])⟩

/-! ## The progress counter -/

/-- Claim C10. Progress counter: at every tick boundary of a run from the
initial state `progressA` is -1 or lies in `[0, 82]`; a tick that starts Racing
below 82 and does not resolve the race increases it by exactly one; a tick that
starts at 82 and does not resolve the race leaves it at 82. -/
theorem progress_counter (s : State) (hs : Reachable s) (t : Tick) :
    (s.progressA = -1 ∨ (0 ≤ s.progressA ∧ s.progressA ≤ 82)) ∧
    (s.progressA ≠ -1 → s.progressA < 82 → (tick s t).progressA ≠ -1 →
      (tick s t).progressA = s.progressA + 1) ∧
    (s.progressA = 82 → (tick s t).progressA ≠ -1 → (tick s t).progressA = 82) := by
  obtain ⟨h1, h2, h3, h4, h5, h6, h7, h8, h9, h10, h11, h12, h13, h14⟩ := inv_of_reachable hs
  refine ⟨by omega, ?_⟩
  unfold tick
  rcases additions_split s t with ⟨hc, he⟩ | ⟨hc, he⟩ | ⟨hc, he⟩ | ⟨hc, he⟩ | ⟨hc, he⟩ |
      ⟨hc, he⟩ | ⟨hc, he⟩ | ⟨hc, he⟩ | ⟨hc, he⟩ | ⟨hc, he⟩ <;>
    rcases resolve_split (additions s t) with ⟨hd, hr⟩ | ⟨hd, hr⟩ | ⟨hd, hr⟩ | ⟨hd, hr⟩ <;>
    rw [hr] <;> rw [he] at hd ⊢ <;>
    simp only [credit, acceptOthers, dropHeavy, acceptHeavy] at hd ⊢ <;>
    refine ⟨fun _ _ _ => ?_, fun _ _ => ?_⟩ <;> first | trivial | omega

theorem progress_counter_witness :
    Reachable (run init oneA) ∧
    ((run init oneA).progressA = -1 ∨
      (0 ≤ (run init oneA).progressA ∧ (run init oneA).progressA ≤ 82)) ∧
    ((run init oneA).progressA ≠ -1 ∧ (run init oneA).progressA < 82 ∧
      (tick (run init oneA) quiet).progressA ≠ -1 ∧
      (tick (run init oneA) quiet).progressA = (run init oneA).progressA + 1) ∧
    ((run init tieTicks).progressA = 82 ∧ (tick (run init tieTicks) quiet).progressA ≠ -1 ∧
      (tick (run init tieTicks) quiet).progressA = 82) :=
  ⟨⟨oneA, rfl⟩, (progress_counter (run init oneA) ⟨oneA, rfl⟩ quiet).1,
    ⟨by decide, by decide, by decide,
      (progress_counter (run init oneA) ⟨oneA, rfl⟩ quiet).2.1 (by decide) (by decide)
        (by decide)⟩,
    ⟨by rw [run_tieTicks], by rw [run_tieTicks]; decide,
      (progress_counter (run init tieTicks) ⟨tieTicks, rfl⟩ quiet).2.2 (by rw [run_tieTicks])
        (by rw [run_tieTicks]; decide)⟩⟩


/-! ## Further consequences of the phase lemmas -/

theorem resolve_comp_ahead (m : State) (h : m.compDepth > m.heavyDepth) :
    resolve m = dropHeavy m := by
  rcases resolve_split m with ⟨hd, hr⟩ | ⟨hd, hr⟩ | ⟨hd, hr⟩ | ⟨hd, hr⟩ <;>
    first | exact hr | omega

/-- Claim C11. The heavy producer never makes its own blocks stale: from a
reachable state, in a tick in which only `A` finds blocks, the additions credit
`heavyDepth` and `heavyA` with the successes of `A`, `stalesA` is unchanged by
the tick, and at the end of the tick these blocks are still on the heavy chain
or have been accepted into `blocksA`. -/
theorem heavy_producer_never_stales_itself (s : State) (hs : Reachable s) (t : Tick)
    (hB : t.B = 0) (hC : t.C = 0) (hD : t.D = 0) (hE : t.E = 0) (hF : t.F = 0) :
    (additions s t).heavyDepth = s.heavyDepth + t.A ∧
    (additions s t).heavyA = s.heavyA + t.A ∧
    (tick s t).stalesA = s.stalesA ∧
    (((tick s t).heavyDepth = s.heavyDepth + t.A ∧ (tick s t).heavyA = s.heavyA + t.A ∧
        (tick s t).blocksA = s.blocksA) ∨
      ((tick s t).blocksA = s.blocksA + s.heavyA + t.A ∧ (tick s t).progressA = -1)) := by
  obtain ⟨h1, h2, h3, h4, h5, h6, h7, h8, h9, h10, h11, h12, h13, h14⟩ := inv_of_reachable hs
  unfold tick
  rcases additions_split s t with ⟨hc, he⟩ | ⟨hc, he⟩ | ⟨hc, he⟩ | ⟨hc, he⟩ | ⟨hc, he⟩ |
      ⟨hc, he⟩ | ⟨hc, he⟩ | ⟨hc, he⟩ | ⟨hc, he⟩ | ⟨hc, he⟩ <;>
    rcases resolve_split (additions s t) with ⟨hd, hr⟩ | ⟨hd, hr⟩ | ⟨hd, hr⟩ | ⟨hd, hr⟩ <;>
    rw [hr] <;> rw [he] at hd ⊢ <;>
    dsimp only [credit, acceptOthers, dropHeavy, acceptHeavy] at hd ⊢ <;>
    omega

theorem heavy_producer_never_stales_itself_witness :
    Reachable (run init oneA) ∧ twoA.B = 0 ∧ twoA.C = 0 ∧ twoA.D = 0 ∧ twoA.E = 0 ∧
    twoA.F = 0 ∧
    (additions (run init oneA) twoA).heavyDepth = (run init oneA).heavyDepth + twoA.A ∧
    (additions (run init oneA) twoA).heavyA = (run init oneA).heavyA + twoA.A ∧
    (tick (run init oneA) twoA).stalesA = (run init oneA).stalesA :=
  have h := heavy_producer_never_stales_itself (run init oneA) ⟨oneA, rfl⟩ twoA
    rfl rfl rfl rfl rfl
  ⟨⟨oneA, rfl⟩, rfl, rfl, rfl, rfl, rfl, h.1, h.2.1, h.2.2.1⟩

/-- Claim C12. Ledger monotonicity: from a reachable state, after a tick each
of the twelve ledger counters is at least what it was before the tick. -/
theorem ledger_monotone (s : State) (hs : Reachable s) (t : Tick) :
    s.blocksA ≤ (tick s t).blocksA ∧ s.blocksB ≤ (tick s t).blocksB ∧
    s.blocksC ≤ (tick s t).blocksC ∧ s.blocksD ≤ (tick s t).blocksD ∧
    s.blocksE ≤ (tick s t).blocksE ∧ s.blocksF ≤ (tick s t).blocksF ∧
    s.stalesA ≤ (tick s t).stalesA ∧ s.stalesB ≤ (tick s t).stalesB ∧
    s.stalesC ≤ (tick s t).stalesC ∧ s.stalesD ≤ (tick s t).stalesD ∧
    s.stalesE ≤ (tick s t).stalesE ∧ s.stalesF ≤ (tick s t).stalesF := by
  obtain ⟨h1, h2, h3, h4, h5, h6, h7, h8, h9, h10, h11, h12, h13, h14⟩ := inv_of_reachable hs
  unfold tick
  rcases additions_split s t with ⟨hc, he⟩ | ⟨hc, he⟩ | ⟨hc, he⟩ | ⟨hc, he⟩ | ⟨hc, he⟩ |
      ⟨hc, he⟩ | ⟨hc, he⟩ | ⟨hc, he⟩ | ⟨hc, he⟩ | ⟨hc, he⟩ <;>
    rcases resolve_split (additions s t) with ⟨hd, hr⟩ | ⟨hd, hr⟩ | ⟨hd, hr⟩ | ⟨hd, hr⟩ <;>
    rw [hr] <;> rw [he] at hd ⊢ <;>
    dsimp only [credit, acceptOthers, dropHeavy, acceptHeavy] at hd ⊢ <;>
    omega

theorem ledger_monotone_witness :
    Reachable (run init oneA) ∧
    (run init oneA).stalesA ≤ (tick (run init oneA) { F := 2 }).stalesA ∧
    (run init oneA).blocksF ≤ (tick (run init oneA) { F := 2 }).blocksF :=
  have h := ledger_monotone (run init oneA) ⟨oneA, rfl⟩ { F := 2 }
  ⟨⟨oneA, rfl⟩, h.2.2.2.2.2.2.1, h.2.2.2.2.2.1⟩

/-! ## The heavy chain wins -/

/-- Claim C14. Heavy-chain win: for every state with `progressA = 82`, reachable
or not, a tick after whose additions `heavyDepth > compDepth` ends with
`blocksA .. blocksE` increased by the provisional `heavyA .. heavyE` (this
tick's additions included), `stalesD, stalesE, stalesF` increased by
`compD, compE, compF`, the other four ledger counters unchanged,
`progressA = -1`, and both depths and all eight provisional counters zero. -/
theorem heavy_chain_wins (s : State) (t : Tick) (h82 : s.progressA = 82)
    (h : (additions s t).heavyDepth > (additions s t).compDepth) :
    (tick s t).blocksA = s.blocksA + (additions s t).heavyA ∧
    (tick s t).blocksB = s.blocksB + (additions s t).heavyB ∧
    (tick s t).blocksC = s.blocksC + (additions s t).heavyC ∧
    (tick s t).blocksD = s.blocksD + (additions s t).heavyD ∧
    (tick s t).blocksE = s.blocksE + (additions s t).heavyE ∧
    (tick s t).stalesD = s.stalesD + (additions s t).compD ∧
    (tick s t).stalesE = s.stalesE + (additions s t).compE ∧
    (tick s t).stalesF = s.stalesF + (additions s t).compF ∧
    (tick s t).blocksF = s.blocksF ∧ (tick s t).stalesA = s.stalesA ∧
    (tick s t).stalesB = s.stalesB ∧ (tick s t).stalesC = s.stalesC ∧
    Cleared (tick s t) := by
  obtain ⟨hp, hl⟩ := additions_at_horizon s t (by omega)
  obtain ⟨-, r2, -⟩ := resolve_at_horizon (additions s t) (by omega)
  unfold SameLedger at hl
  unfold tick Cleared
  rw [r2 h]
  dsimp only [acceptHeavy]
  omega

theorem heavy_chain_wins_witness :
    (run init tieTicks).progressA = 82 ∧
    (additions (run init tieTicks) { B := 1 }).heavyDepth
      > (additions (run init tieTicks) { B := 1 }).compDepth ∧
    (tick (run init tieTicks) { B := 1 }).blocksA
      = (run init tieTicks).blocksA + (additions (run init tieTicks) { B := 1 }).heavyA ∧
    (tick (run init tieTicks) { B := 1 }).stalesF
      = (run init tieTicks).stalesF + (additions (run init tieTicks) { B := 1 }).compF ∧
    Cleared (tick (run init tieTicks) { B := 1 }) :=
  have h := heavy_chain_wins (run init tieTicks) { B := 1 } (by rw [run_tieTicks])
    (by rw [run_tieTicks]; decide)
  ⟨by rw [run_tieTicks], by rw [run_tieTicks]; decide, h.1, h.2.2.2.2.2.2.2.1,
    h.2.2.2.2.2.2.2.2.2.2.2.2⟩

/-! ## The near phase and the start of a race -/

/-- Claim C15. Near-phase split: for every state with `1 <= progressA <= 40`,
reachable or not, and every tick with
`compDepth + D + E + F <= heavyDepth + A + B + C`, after the tick `heavyDepth`
has grown by `A + B + C` (and `heavyA, heavyB, heavyC` by `A, B, C`),
`compDepth` has grown by `D + E + F` (and `compD, compE, compF` by `D, E, F`),
and no ledger counter has changed. -/
theorem near_phase_split (s : State) (t : Tick) (h1 : 1 ≤ s.progressA)
    (h40 : s.progressA ≤ 40)
    (h : s.compDepth + t.D + t.E + t.F ≤ s.heavyDepth + t.A + t.B + t.C) :
    (tick s t).heavyDepth = s.heavyDepth + t.A + t.B + t.C ∧
    (tick s t).heavyA = s.heavyA + t.A ∧ (tick s t).heavyB = s.heavyB + t.B ∧
    (tick s t).heavyC = s.heavyC + t.C ∧
    (tick s t).compDepth = s.compDepth + t.D + t.E + t.F ∧
    (tick s t).compD = s.compD + t.D ∧ (tick s t).compE = s.compE + t.E ∧
    (tick s t).compF = s.compF + t.F ∧
    SameLedger s (tick s t) := by
  unfold tick SameLedger
  rcases additions_split s t with ⟨hc, he⟩ | ⟨hc, he⟩ | ⟨hc, he⟩ | ⟨hc, he⟩ | ⟨hc, he⟩ |
      ⟨hc, he⟩ | ⟨hc, he⟩ | ⟨hc, he⟩ | ⟨hc, he⟩ | ⟨hc, he⟩ <;>
    rcases resolve_split (additions s t) with ⟨hd, hr⟩ | ⟨hd, hr⟩ | ⟨hd, hr⟩ | ⟨hd, hr⟩ <;>
    rw [hr] <;> rw [he] at hd ⊢ <;>
    dsimp only [credit, acceptOthers, dropHeavy, acceptHeavy] at hd ⊢ <;>
    omega

theorem near_phase_split_witness :
    1 ≤ (run init oneA).progressA ∧ (run init oneA).progressA ≤ 40 ∧
    (run init oneA).compDepth + nearTick.D + nearTick.E + nearTick.F
      ≤ (run init oneA).heavyDepth + nearTick.A + nearTick.B + nearTick.C ∧
    (tick (run init oneA) nearTick).heavyDepth
      = (run init oneA).heavyDepth + nearTick.A + nearTick.B + nearTick.C ∧
    (tick (run init oneA) nearTick).compDepth
      = (run init oneA).compDepth + nearTick.D + nearTick.E + nearTick.F ∧
    SameLedger (run init oneA) (tick (run init oneA) nearTick) :=
  have h := near_phase_split (run init oneA) nearTick (by decide) (by decide) (by decide)
  ⟨by decide, by decide, by decide, h.1, h.2.2.2.2.1, h.2.2.2.2.2.2.2.2⟩

/-- Claim C16. Race start: from a reachable Idle state, a tick in which `A`
finds `a >= 1` blocks and nobody else finds one ends Racing (`progressA = 1`,
so not -1) with `heavyDepth = a`, `heavyA = a`, `compDepth = 0`, and every
ledger counter unchanged. -/
theorem race_start (s : State) (hs : Reachable s) (t : Tick) (hp : s.progressA = -1)
    (hA : 1 ≤ t.A) (hB : t.B = 0) (hC : t.C = 0) (hD : t.D = 0) (hE : t.E = 0)
    (hF : t.F = 0) :
    (tick s t).progressA ≠ -1 ∧ (tick s t).progressA = 1 ∧
    (tick s t).heavyDepth = t.A ∧ (tick s t).heavyA = t.A ∧ (tick s t).compDepth = 0 ∧
    SameLedger s (tick s t) := by
  obtain ⟨h1, h2, h3, h4, h5, h6, h7, h8, h9, h10, h11, h12, h13, h14⟩ := inv_of_reachable hs
  unfold tick SameLedger
  rcases additions_split s t with ⟨hc, he⟩ | ⟨hc, he⟩ | ⟨hc, he⟩ | ⟨hc, he⟩ | ⟨hc, he⟩ |
      ⟨hc, he⟩ | ⟨hc, he⟩ | ⟨hc, he⟩ | ⟨hc, he⟩ | ⟨hc, he⟩ <;>
    rcases resolve_split (additions s t) with ⟨hd, hr⟩ | ⟨hd, hr⟩ | ⟨hd, hr⟩ | ⟨hd, hr⟩ <;>
    rw [hr] <;> rw [he] at hd ⊢ <;>
    dsimp only [credit, acceptOthers, dropHeavy, acceptHeavy] at hd ⊢ <;>
    omega

theorem race_start_witness :
    Reachable init ∧ init.progressA = -1 ∧ 1 ≤ threeA.A ∧
    (tick init threeA).progressA ≠ -1 ∧ (tick init threeA).progressA = 1 ∧
    (tick init threeA).heavyDepth = threeA.A ∧ (tick init threeA).heavyA = threeA.A ∧
    (tick init threeA).compDepth = 0 ∧ SameLedger init (tick init threeA) :=
  ⟨⟨[], rfl⟩, rfl, by decide,
    race_start init ⟨[], rfl⟩ threeA rfl (by decide) rfl rfl rfl rfl rfl⟩

/-! ## The depth counters -/

/-- Claim C17. The depth counters agree with the per-miner counters: at every
tick boundary of every run from the initial state `heavyDepth` is the sum of
`heavyA .. heavyE` and `compDepth` is the sum of `compD, compE, compF`. -/
theorem depth_counters_agree (ts : List Tick) :
    (run init ts).heavyDepth
      = (run init ts).heavyA + (run init ts).heavyB + (run init ts).heavyC
        + (run init ts).heavyD + (run init ts).heavyE ∧
    (run init ts).compDepth
      = (run init ts).compD + (run init ts).compE + (run init ts).compF :=
  ⟨(inv_run init ts inv_init).heavySum, (inv_run init ts inv_init).compSum⟩

/-- Claim C18. The competing chain is never ahead at a tick boundary: at every
tick boundary of every run from the initial state `compDepth <= heavyDepth`,
and while a race is in progress (`progressA != -1`) `heavyDepth >= 1`. -/
theorem competing_chain_never_ahead (ts : List Tick) :
    (run init ts).compDepth ≤ (run init ts).heavyDepth ∧
    ((run init ts).progressA ≠ -1 → 1 ≤ (run init ts).heavyDepth) :=
  ⟨(inv_run init ts inv_init).behind, (inv_run init ts inv_init).racing⟩

theorem competing_chain_never_ahead_witness :
    (run init [{ A := 1 }, { F := 1 }]).progressA ≠ -1 ∧
    (run init [{ A := 1 }, { F := 1 }]).compDepth
      ≤ (run init [{ A := 1 }, { F := 1 }]).heavyDepth ∧
    1 ≤ (run init [{ A := 1 }, { F := 1 }]).heavyDepth :=
  ⟨by decide, (competing_chain_never_ahead [{ A := 1 }, { F := 1 }]).1,
    (competing_chain_never_ahead [{ A := 1 }, { F := 1 }]).2 (by decide)⟩

/-! ## `D` and `E` on the competing chain in the mid phase -/

/-- Claim C20. In the mid phase `D` and `E` cannot build a losing competing
block: from a reachable state with `41 <= progressA <= 80`, in a tick in which
`D + E >= 1` and `seenDE` is true after the check of lines 247-249 (nothing
later in the additions writes `seenDE`, so this is its value after them), the
blocks of `D` and `E` go to the competing chain, the competing chain wins in
that same tick, and these blocks are in `blocksD` and `blocksE` at the end of
it. -/
theorem mid_phase_competing_block_wins (s : State) (hs : Reachable s) (t : Tick)
    (h41 : 41 ≤ s.progressA) (h80 : s.progressA ≤ 80) (hDE : 1 ≤ t.D + t.E)
    (hseen : (additions s t).seenDE = true) :
    (additions s t).compD = s.compD + t.D ∧ (additions s t).compE = s.compE + t.E ∧
    (additions s t).compDepth > (additions s t).heavyDepth ∧
    tick s t = dropHeavy (additions s t) ∧
    (tick s t).blocksD = s.blocksD + s.compD + t.D ∧
    (tick s t).blocksE = s.blocksE + s.compE + t.E ∧
    (tick s t).progressA = -1 := by
  obtain ⟨h1, h2, h3, h4, h5, h6, h7, h8, h9, h10, h11, h12, h13, h14⟩ := inv_of_reachable hs
  have key : (additions s t).compD = s.compD + t.D ∧ (additions s t).compE = s.compE + t.E ∧
      (additions s t).compDepth > (additions s t).heavyDepth ∧
      (additions s t).blocksD = s.blocksD ∧ (additions s t).blocksE = s.blocksE := by
    rcases additions_split s t with ⟨hc, he⟩ | ⟨hc, he⟩ | ⟨hc, he⟩ | ⟨hc, he⟩ | ⟨hc, he⟩ |
        ⟨hc, he⟩ | ⟨hc, he⟩ | ⟨hc, he⟩ | ⟨hc, he⟩ | ⟨hc, he⟩ <;>
      rw [he] at hseen ⊢ <;>
      dsimp only [credit, acceptOthers] at hseen ⊢ <;>
      first | omega | simp_all
  obtain ⟨k1, k2, k3, k4, k5⟩ := key
  have hr := resolve_comp_ahead (additions s t) k3
  unfold tick
  rw [hr]
  refine ⟨k1, k2, k3, rfl, ?_, ?_, ?_⟩ <;> dsimp only [dropHeavy] <;> omega

theorem mid_phase_competing_block_wins_witness :
    Reachable (run init midTieTicks) ∧
    41 ≤ (run init midTieTicks).progressA ∧ (run init midTieTicks).progressA ≤ 80 ∧
    1 ≤ oneD.D + oneD.E ∧
    (additions (run init midTieTicks) oneD).seenDE = true ∧
    tick (run init midTieTicks) oneD = dropHeavy (additions (run init midTieTicks) oneD) ∧
    (tick (run init midTieTicks) oneD).blocksD
      = (run init midTieTicks).blocksD + (run init midTieTicks).compD + oneD.D :=
  have h := mid_phase_competing_block_wins (run init midTieTicks) ⟨midTieTicks, rfl⟩
    oneD (by rw [run_midTieTicks]) (by rw [run_midTieTicks]; decide)
    (by decide) (by rw [run_midTieTicks]; decide)
  ⟨⟨midTieTicks, rfl⟩, by rw [run_midTieTicks], by rw [run_midTieTicks]; decide,
    by decide, by rw [run_midTieTicks]; decide, h.2.2.2.1, h.2.2.2.2.1⟩
/-! ## A stale `seenDE` -/

theorem resolve_seenDE (m : State) (b : Bool) :
    resolve { m with seenDE := b } = { resolve m with seenDE := b } := by
  rcases resolve_split m with ⟨hd, hr⟩ | ⟨hd, hr⟩ | ⟨hd, hr⟩ | ⟨hd, hr⟩ <;>
    rcases resolve_split { m with seenDE := b } with
      ⟨hd', hr'⟩ | ⟨hd', hr'⟩ | ⟨hd', hr'⟩ | ⟨hd', hr'⟩ <;>
    dsimp only at hd' <;>
    first | omega | (rw [hr', hr]; done) | (rw [hr', hr]; rfl)

theorem resolve_keeps_seenDE (m : State) : (resolve m).seenDE = m.seenDE := by
  rcases resolve_split m with ⟨hd, hr⟩ | ⟨hd, hr⟩ | ⟨hd, hr⟩ | ⟨hd, hr⟩ <;>
    rw [hr] <;> rfl

/-- From an unread state the additions of a tick either overwrite `seenDE` or
do not look at it. -/
theorem additions_seenDE (s : State) (t : Tick) (b : Bool) (h : Unread s) :
    (additions { s with seenDE := b } t = additions s t ∧
      (0 < t.D + t.E + t.F ∨ 41 ≤ s.progressA)) ∨
    (additions { s with seenDE := b } t = { additions s t with seenDE := b } ∧
      (t.D + t.E + t.F = 0 ∨ s.progressA = -1) ∧ s.progressA ≤ 40) := by
  unfold Unread at h
  rcases additions_split s t with ⟨hc, he⟩ | ⟨hc, he⟩ | ⟨hc, he⟩ | ⟨hc, he⟩ | ⟨hc, he⟩ |
      ⟨hc, he⟩ | ⟨hc, he⟩ | ⟨hc, he⟩ | ⟨hc, he⟩ | ⟨hc, he⟩ <;>
    rcases additions_split { s with seenDE := b } t with
      ⟨hc', he'⟩ | ⟨hc', he'⟩ | ⟨hc', he'⟩ | ⟨hc', he'⟩ | ⟨hc', he'⟩ |
      ⟨hc', he'⟩ | ⟨hc', he'⟩ | ⟨hc', he'⟩ | ⟨hc', he'⟩ | ⟨hc', he'⟩ <;>
    dsimp only at hc' <;>
    first
    | omega
    | exact Or.inl ⟨by rw [he', he]; rfl, by omega⟩
    | exact Or.inr ⟨by rw [he', he]; rfl, by omega, by omega⟩

theorem unread_tick (s : State) (t : Tick) (h : Unread s)
    (hq : t.D + t.E + t.F = 0 ∨ s.progressA = -1) (h40 : s.progressA ≤ 40) :
    Unread (tick s t) := by
  unfold Unread at h ⊢
  unfold tick
  rcases additions_split s t with ⟨hc, he⟩ | ⟨hc, he⟩ | ⟨hc, he⟩ | ⟨hc, he⟩ | ⟨hc, he⟩ |
      ⟨hc, he⟩ | ⟨hc, he⟩ | ⟨hc, he⟩ | ⟨hc, he⟩ | ⟨hc, he⟩ <;>
    rcases resolve_split (additions s t) with ⟨hd, hr⟩ | ⟨hd, hr⟩ | ⟨hd, hr⟩ | ⟨hd, hr⟩ <;>
    rw [hr] <;> rw [he] at hd ⊢ <;>
    dsimp only [credit, acceptOthers, dropHeavy, acceptHeavy] at hd ⊢ <;>
    omega

theorem tick_seenDE (s : State) (t : Tick) (b : Bool) (h : Unread s) :
    tick { s with seenDE := b } t = tick s t ∨
    (tick { s with seenDE := b } t = { tick s t with seenDE := b } ∧ Unread (tick s t)) := by
  unfold tick
  rcases additions_seenDE s t b h with ⟨e, -⟩ | ⟨e, hq, h40⟩
  · exact Or.inl (by rw [e])
  · exact Or.inr ⟨by rw [e, resolve_seenDE], unread_tick s t h hq h40⟩

theorem run_seenDE (s : State) (b : Bool) (ts : List Tick) (h : Unread s) :
    run { s with seenDE := b } ts = run s ts ∨
    run { s with seenDE := b } ts = { run s ts with seenDE := b } := by
  induction ts generalizing s with
  | nil => exact Or.inr rfl
  | cons t ts ih =>
    rw [run_cons, run_cons]
    rcases tick_seenDE s t b h with e | ⟨e, hu⟩
    · exact Or.inl (by rw [e])
    · rw [e]
      exact ih (tick s t) hu

/-- Claim C19. A stale `seenDE` does not leak into the next race: the two
resolution checks leave `seenDE` as it is, and yet two runs over the same ticks
from Idle states with both depths and all provisional counters zero that
differ only in `seenDE` have the same twelve ledger counters at every tick
boundary. -/
theorem stale_seenDE_does_not_leak (m s : State) (hs : Cleared s) (b : Bool)
    (ts : List Tick) :
    (resolve m).seenDE = m.seenDE ∧
    SameLedger (run s ts) (run { s with seenDE := b } ts) := by
  refine ⟨resolve_keeps_seenDE m, ?_⟩
  have hu : Unread s := by
    unfold Cleared at hs
    unfold Unread
    omega
  unfold SameLedger
  rcases run_seenDE s b ts hu with e | e <;> rw [e] <;> and_intros <;> rfl

theorem stale_seenDE_does_not_leak_witness :
    Cleared (run init lostRace) ∧ (run init lostRace).seenDE = true ∧
    (resolve (run init lostRace)).seenDE = (run init lostRace).seenDE ∧
    SameLedger (run (run init lostRace) laterRace)
      (run { run init lostRace with seenDE := false } laterRace) :=
  ⟨by unfold Cleared; decide, by decide,
    stale_seenDE_does_not_leak (run init lostRace) (run init lostRace)
      (by unfold Cleared; decide) false laterRace⟩

end UnlimitedBlocksize

namespace DifficultyAdjustment

/-! ## The clamp of `targetAdjustment0` -/

/-- What lines 21-29 compute when the denominator is not zero: the fraction,
clamped to the interval from 999/1000 to 1001/1000. -/
theorem targetAdjustment0_eq (timePassed expectedTimePassed : Int)
    (h : expectedTimePassed ≠ 0) :
    targetAdjustment0 timePassed expectedTimePassed
      = some (if (timePassed : ℚ) / expectedTimePassed > 1001 / 1000 then 1001 / 1000
              else if (timePassed : ℚ) / expectedTimePassed < 999 / 1000 then 999 / 1000
              else (timePassed : ℚ) / expectedTimePassed) := by
  simp only [targetAdjustment0, newRat, h, if_false]
  split_ifs <;> rfl

/-- Claim C13. The clamp is not at 1%: for `timePassed = 1005` and
`expectedTimePassed = 1000` the ratio 201/200 lies within 1% of 1, yet the code
returns 1001/1000 instead of the ratio; for 102/100 it returns 1001/1000, not
101/100, and for 98/100 it returns 999/1000, not 99/100. -/
theorem targetAdjustment0_clamps_at_a_tenth_of_a_percent :
    (99 / 100 ≤ (1005 : ℚ) / 1000 ∧ (1005 : ℚ) / 1000 ≤ 101 / 100) ∧
    targetAdjustment0 1005 1000 = some (1001 / 1000) ∧
    targetAdjustment0 1005 1000 ≠ some (1005 / 1000) ∧
    targetAdjustment0 102 100 = some (1001 / 1000) ∧
    targetAdjustment0 102 100 ≠ some (101 / 100) ∧
    targetAdjustment0 98 100 = some (999 / 1000) ∧
    targetAdjustment0 98 100 ≠ some (99 / 100) := by
  rw [targetAdjustment0_eq 1005 1000 (by decide), targetAdjustment0_eq 102 100 (by decide),
    targetAdjustment0_eq 98 100 (by decide)]
  norm_num

end DifficultyAdjustment
